import Mathlib

/-!
Shallow embedding of the copyright scheduler of the
free-author-rights-schedulle repository (src/src/scheduler.py together
with the data contracts of src/src/data_models.py and the constant of
src/src/config.py).  Dates are calendar triples compared the way Python
compares `datetime.date` values (lexicographically); the storage
collaborator is an explicit environment supplying the rule catalog and
the jurisdiction list, and the process-wide current date is a field of
that environment.  Database writes performed by the aggregator are side
effects on an external store that no scheduler function reads back, so
they are not part of the state modelled here.
-/

namespace Scheduler

/-- Calendar date (year, month, day), mirroring Python `datetime.date`. -/
structure Date where
  year : Nat
  month : Nat
  day : Nat
deriving DecidableEq, Repr

/-- Python `date` comparison is lexicographic on (year, month, day). -/
def dateLeB (a b : Date) : Bool :=
  decide (a.year < b.year ∨ (a.year = b.year ∧
    (a.month < b.month ∨ (a.month = b.month ∧ a.day ≤ b.day))))

/-- Strict version of `dateLeB`; `x > y` in Python is `dateLtB y x`. -/
def dateLtB (a b : Date) : Bool :=
  decide (a.year < b.year ∨ (a.year = b.year ∧
    (a.month < b.month ∨ (a.month = b.month ∧ a.day < b.day))))

/-- Rata-die style day count of a proleptic Gregorian date, so that
Python `(d1 - d2).days` is `d1.toDays - d2.toDays`. -/
def Date.toDays (dt : Date) : Int :=
  let y : Int := if dt.month ≤ 2 then (dt.year : Int) - 1 else (dt.year : Int)
  let era : Int := y.fdiv 400
  let yoe : Int := y - era * 400
  let mp : Int := ((dt.month : Int) + 9) % 12
  let doy : Int := (153 * mp + 2).fdiv 5 + (dt.day : Int) - 1
  let doe : Int := yoe * 365 + yoe.fdiv 4 - yoe.fdiv 100 + doy
  era * 146097 + doe - 719468

/-- End-of-year convention used throughout the scheduler. -/
def mkDec31 (y : Nat) : Date := ⟨y, 12, 31⟩

/-- Closed status set of the scheduler. -/
inductive Status where
  | Copyrighted
  | PublicDomain
  | Unknown
deriving DecidableEq, Repr

/-- Jurisdiction record (data_models.Jurisdiction).  Ids are surrogate
database keys; `code` is the cross-system join key. -/
structure Jurisdiction where
  name : String
  id : Option Nat := none
  code : Option String := none
  term_years_after_death : Nat := 70
  has_special_rules : Bool := false
deriving DecidableEq, Repr

/-- Author record (data_models.Author).  The back-reference list of works
is omitted: the scheduler never reads it. -/
structure Author where
  name : String
  id : Option Nat := none
  birth_date : Option Date := none
  death_date : Option Date := none
  nationality : Option String := none
  bio : Option String := none
deriving DecidableEq, Repr

/-- Base date enumeration of data_models.CopyrightRule. -/
inductive BaseDateType where
  | publication
  | creation
  | author_death
  | fixed_year
deriving DecidableEq, Repr

/-- Copyright rule record (data_models.CopyrightRule). -/
structure CopyrightRule where
  jurisdiction : Jurisdiction
  rule_type : String
  term_years : Nat
  base_date_type : BaseDateType := BaseDateType.publication
  description : String := ""
deriving DecidableEq, Repr

/-- Work record (data_models.Work), restricted to the fields the
scheduler reads or writes plus the publication date pair.  The
status-by-jurisdiction dictionary is an association list keyed by
jurisdiction code. -/
structure Work where
  title : String
  id : Option Nat := none
  authors : List Author := []
  creation_date : Option Date := none
  publication_date : Option Date := none
  first_publication_date : Option Date := none
  copyright_expiry_date : Option Date := none
  primary_jurisdiction : Option Jurisdiction := none
  status : Status := Status.Unknown
  status_by_jurisdiction : List (String × Status) := []
  is_collaborative : Bool := false
deriving DecidableEq, Repr

/-- Environment standing for the storage collaborator and the current
date provider: rules keyed by jurisdiction id, the jurisdiction catalog,
and the process-wide current date. -/
structure Env where
  rulesFor : Nat → List CopyrightRule
  jurisdictions : List Jurisdiction
  currentDate : Date

/-- Global default term (config.DEFAULT_TERM_YEARS). -/
def DEFAULT_TERM_YEARS : Nat := 70

/-- One step of the latest-death-date loop of calculate_standard_expiry
(lines 49-54): a death date replaces the accumulator when the
accumulator is empty or the death date is later. -/
def latestDeathStep (acc : Option Date) (a : Author) : Option Date :=
  match a.death_date with
  | some d =>
    match acc with
    | none => some d
    | some l => if dateLtB l d then some d else some l
  | none => acc

/-- Latest death date among the authors that have one. -/
def latestDeathDate (authors : List Author) : Option Date :=
  authors.foldl latestDeathStep none

/-- Flag all_authors_have_death_dates of the source loops. -/
def allHaveDeathDates (authors : List Author) : Bool :=
  authors.all fun a => a.death_date.isSome

/-- Known death years of the authors, in author order. -/
def deathYears (authors : List Author) : List Nat :=
  authors.filterMap fun a => a.death_date.map Date.year

/-- Latest year among the known death years. -/
def maxDeathYear (authors : List Author) : Nat :=
  (deathYears authors).foldl Nat.max 0

/-- Term selection of calculate_standard_expiry lines 39-42. -/
def termOf (jd : Option Jurisdiction) : Nat :=
  match jd with
  | some j => j.term_years_after_death
  | none => DEFAULT_TERM_YEARS

/-- Term selection of the creation-date fallback path, lines 74-83: 95
for US, 70 for EU, the jurisdiction term for any other jurisdiction, and
95 when no jurisdiction is given. -/
def fallbackTerm (jd : Option Jurisdiction) : Nat :=
  match jd with
  | some j =>
    if j.code = some "US" then 95
    else if j.code = some "EU" then 70
    else j.term_years_after_death
  | none => 95

/-- Creation-date fallback of calculate_standard_expiry (lines 71-90). -/
def creationFallback (w : Work) (jd : Option Jurisdiction) : Option Date :=
  match w.creation_date with
  | some cd => some (mkDec31 (cd.year + fallbackTerm jd))
  | none => none

/-- calculate_standard_expiry (scheduler.py lines 34-94). -/
def calculateStandardExpiry (w : Work) (jd : Option Jurisdiction) : Option Date :=
  if w.authors.isEmpty then creationFallback w jd
  else
    match latestDeathDate w.authors with
    | some latest => some (mkDec31 (latest.year + termOf jd))
    | none =>
      if allHaveDeathDates w.authors = false ∧ w.creation_date = none then none
      else creationFallback w jd

/-- US pre-1923 block of apply_special_rules (lines 111-116): works
created before 1923 with a published_before_1923 rule get the fixed
sentinel Jan 1 1923. -/
def usPre1923 (rules : List CopyrightRule) (w : Work) : Option Date :=
  match w.creation_date with
  | some cd =>
    if cd.year < 1923 then
      rules.findSome? fun r =>
        if r.rule_type = "published_before_1923" then some ⟨1923, 1, 1⟩ else none
    else none
  | none => none

/-- US 1923-1977 block of apply_special_rules (lines 118-125). -/
def us1923to1977 (rules : List CopyrightRule) (w : Work) : Option Date :=
  match w.creation_date with
  | some cd =>
    if 1923 ≤ cd.year ∧ cd.year ≤ 1977 then
      rules.findSome? fun r =>
        if r.rule_type = "published_1923_to_1977" then
          some (mkDec31 (cd.year + r.term_years))
        else none
    else none
  | none => none

/-- US corporate-works block of apply_special_rules (lines 127-134):
fires for a sole author whose name carries the corporate suffix. -/
def usCorporate (rules : List CopyrightRule) (w : Work) : Option Date :=
  match w.authors with
  | [a] =>
    if a.name.endsWith " Inc." then
      rules.findSome? fun r =>
        if r.rule_type = "corporate_works" then
          match w.creation_date with
          | some cd => some (mkDec31 (cd.year + r.term_years))
          | none => none
        else none
    else none
  | _ => none

/-- US branch of apply_special_rules: the three blocks in source order,
the first date found winning. -/
def usSpecialRules (rules : List CopyrightRule) (w : Work) : Option Date :=
  match usPre1923 rules w with
  | some d => some d
  | none =>
    match us1923to1977 rules w with
    | some d => some d
    | none => usCorporate rules w

/-- EU anonymous-works block of apply_special_rules (lines 138-145). -/
def euAnonymous (rules : List CopyrightRule) (w : Work) : Option Date :=
  match w.authors, w.creation_date with
  | [], some cd =>
    rules.findSome? fun r =>
      if r.rule_type = "anonymous_works" then
        some (mkDec31 (cd.year + r.term_years))
      else none
  | _, _ => none

/-- EU collaborative-works block of apply_special_rules (lines 147-166):
requires more than one author and every author to have a death date. -/
def euCollaborative (rules : List CopyrightRule) (w : Work) : Option Date :=
  if 1 < w.authors.length then
    rules.findSome? fun r =>
      if r.rule_type = "collaborative_works" then
        match latestDeathDate w.authors, allHaveDeathDates w.authors with
        | some latest, true => some (mkDec31 (latest.year + r.term_years))
        | _, _ => none
      else none
  else none

/-- EU branch of apply_special_rules: the two blocks in source order. -/
def euSpecialRules (rules : List CopyrightRule) (w : Work) : Option Date :=
  match euAnonymous rules w with
  | some d => some d
  | none => euCollaborative rules w

/-- GB branch of apply_special_rules, lines 169-177: Crown copyright. -/
def gbSpecialRules (rules : List CopyrightRule) (w : Work) : Option Date :=
  if w.authors ≠ [] ∧ w.authors.any (fun a => a.name = "Crown") then
    match w.creation_date with
    | some cd =>
      rules.findSome? fun r =>
        if r.rule_type = "crown_copyright" then
          some (mkDec31 (cd.year + r.term_years))
        else none
    | none => none
  else none

/-- apply_special_rules (scheduler.py lines 96-180).  A jurisdiction id
that is absent or 0 is falsy in Python, hence yields no special rule. -/
def applySpecialRules (env : Env) (w : Work) (j : Jurisdiction) : Option Date :=
  match j.id with
  | none => none
  | some jid =>
    if jid = 0 then none
    else if (env.rulesFor jid).isEmpty then none
    else if j.code = some "US" then usSpecialRules (env.rulesFor jid) w
    else if j.code = some "EU" then euSpecialRules (env.rulesFor jid) w
    else if j.code = some "GB" then gbSpecialRules (env.rulesFor jid) w
    else none

/-- calculate_expiry (scheduler.py lines 12-32).  An absent jurisdiction
falls back to the primary jurisdiction of the work. -/
def calculateExpiry (env : Env) (w : Work) (jd : Option Jurisdiction) : Option Date :=
  match (match jd with | none => w.primary_jurisdiction | some j => some j) with
  | some j =>
    if j.has_special_rules then
      match applySpecialRules env w j with
      | some d => some d
      | none => calculateStandardExpiry w (some j)
    else calculateStandardExpiry w (some j)
  | none => calculateStandardExpiry w none

/-- First association whose key equals the given one, mirroring Python
dictionary membership and retrieval on the status map. -/
def lookupS : List (String × Status) → String → Option Status
  | [], _ => none
  | p :: t, k => if p.1 = k then some p.2 else lookupS t k

/-- Cached-status branches of determine_status (lines 198-206): the
global status field when no jurisdiction is given, the per-jurisdiction
map entry when a jurisdiction with a present code is given. -/
def cachedStatus (w : Work) (jd : Option Jurisdiction) : Option Status :=
  match jd with
  | none => if w.status ≠ Status.Unknown then some w.status else none
  | some j =>
    if w.status_by_jurisdiction.isEmpty then none
    else
      match j.code with
      | some c => lookupS w.status_by_jurisdiction c
      | none => none

/-- Test used by the US historical fallback of determine_status. -/
def jurisdictionIsUS (jd : Option Jurisdiction) : Bool :=
  match jd with
  | some j => if j.code = some "US" then true else false
  | none => false

/-- determine_status (scheduler.py lines 182-228).  An absent current
date falls back to the process-wide current date of the provider. -/
def determineStatus (env : Env) (w : Work) (jd : Option Jurisdiction)
    (currentDate : Option Date) : Status :=
  match cachedStatus w jd with
  | some s => s
  | none =>
    match calculateExpiry env w jd with
    | some e =>
      if dateLeB e (currentDate.getD env.currentDate) then Status.PublicDomain
      else Status.Copyrighted
    | none =>
      match w.creation_date with
      | some cd =>
        if cd.year < 1875 then Status.PublicDomain
        else if jurisdictionIsUS jd = true ∧ cd.year < 1927 then Status.PublicDomain
        else Status.Unknown
      | none => Status.Unknown

/-- Python dictionary assignment on the status map: replace the value in
place when the key is present, append otherwise. -/
def insertStatus (m : List (String × Status)) (k : String) (v : Status) :
    List (String × Status) :=
  if (lookupS m k).isSome then m.map fun p => if p.1 = k then (k, v) else p
  else m ++ [(k, v)]

/-- Loop body of calculate_multi_jurisdiction_status (lines 246-251):
jurisdictions with an absent or empty code are skipped. -/
def statusMapStep (f : Jurisdiction → Status) (m : List (String × Status))
    (j : Jurisdiction) : List (String × Status) :=
  match j.code with
  | none => m
  | some c => if c = "" then m else insertStatus m c (f j)

/-- Status map built by folding `statusMapStep` over the jurisdictions. -/
def buildStatusMap (f : Jurisdiction → Status) (js : List Jurisdiction) :
    List (String × Status) :=
  js.foldl (statusMapStep f) []

/-- Default resolution of the jurisdiction argument (line 241): an
absent or empty list falls back to the full catalog. -/
def resolveJurisdictions (env : Env) (js : Option (List Jurisdiction)) :
    List Jurisdiction :=
  match js with
  | none => env.jurisdictions
  | some l => if l.isEmpty then env.jurisdictions else l

/-- calculate_multi_jurisdiction_status (scheduler.py lines 230-258).
The per-jurisdiction store write is a side effect on the external
database that no scheduler function reads back, so only the returned
map is modelled. -/
def calculateMultiJurisdictionStatus (env : Env) (w : Work)
    (js : Option (List Jurisdiction)) : List (String × Status) :=
  buildStatusMap (fun j => determineStatus env w (some j) none)
    (resolveJurisdictions env js)

/-- Primary-jurisdiction search of update_work_status (lines 287-296):
first author with a truthy nationality that matches the code of some
catalog jurisdiction, catalog order deciding ties. -/
def findPrimaryJurisdiction (js : List Jurisdiction) (authors : List Author) :
    Option Jurisdiction :=
  authors.findSome? fun a =>
    match a.nationality with
    | some n => if n = "" then none else js.find? fun jj => decide (jj.code = some n)
    | none => none

/-- Step 1 of update_work_status (lines 277-278): the stored global
expiry, computed jurisdiction-less when unset. -/
def globalExpiry (env : Env) (w : Work) : Option Date :=
  if w.copyright_expiry_date.isNone then calculateExpiry env w none
  else w.copyright_expiry_date

/-- update_work_status (scheduler.py lines 260-298): set the global
expiry when unset, recompute the global status, rebuild the
status-by-jurisdiction map, and fill an unset primary jurisdiction from
author nationalities. -/
def updateWorkStatus (env : Env) (w : Work) : Work :=
  let js := env.jurisdictions
  let w1 : Work := { w with copyright_expiry_date := globalExpiry env w }
  let w2 : Work := { w1 with status := determineStatus env w1 none none }
  let w3 : Work := { w2 with status_by_jurisdiction :=
    calculateMultiJurisdictionStatus env w2 (some js) }
  { w3 with primary_jurisdiction :=
    if w3.primary_jurisdiction.isNone ∧ w3.authors ≠ [] then
      match findPrimaryJurisdiction js w3.authors with
      | some jj => some jj
      | none => w3.primary_jurisdiction
    else w3.primary_jurisdiction }

/-- Expiry resolution of get_days_until_expiry (lines 310-318): a fresh
calculation when a jurisdiction is given, otherwise the cached global
expiry, computed on demand when unset. -/
def expiryResolved (env : Env) (w : Work) (jd : Option Jurisdiction) : Option Date :=
  match jd with
  | some _ => calculateExpiry env w jd
  | none =>
    match w.copyright_expiry_date with
    | some e => some e
    | none => calculateExpiry env w none

/-- Work value after the caching mutation of get_days_until_expiry
(lines 315-317): with no jurisdiction and no stored expiry, the global
expiry is computed and stored on the work. -/
def gduWork (env : Env) (w : Work) (jd : Option Jurisdiction) : Work :=
  match jd with
  | some _ => w
  | none =>
    if w.copyright_expiry_date.isNone then
      { w with copyright_expiry_date := calculateExpiry env w none }
    else w

/-- get_days_until_expiry (scheduler.py lines 300-329), returning the
day difference as an integer.  The work mutation of the
no-jurisdiction path is reflected in the work value passed on to
determine_status. -/
def getDaysUntilExpiry (env : Env) (w : Work) (jd : Option Jurisdiction)
    (currentDate : Option Date) : Option Int :=
  match
    (match jd with
     | some _ => calculateExpiry env w jd
     | none => (gduWork env w jd).copyright_expiry_date) with
  | none => none
  | some e =>
    if determineStatus env (gduWork env w jd) jd
        (some (currentDate.getD env.currentDate)) = Status.PublicDomain then none
    else
      if 0 ≤ e.toDays - (currentDate.getD env.currentDate).toDays then
        some (e.toDays - (currentDate.getD env.currentDate).toDays)
      else none

/-! Concrete instances used by claim witnesses and counterexamples. -/

def c1Work : Work :=
  { title := "w1", authors := [{ name := "a1", death_date := some ⟨1950, 6, 1⟩ },
      { name := "a2", death_date := some ⟨1940, 2, 2⟩ }] }

def c1Jur : Jurisdiction := { name := "j1", term_years_after_death := 50 }

def c1Env : Env :=
  { rulesFor := fun _ => [], jurisdictions := [], currentDate := ⟨2025, 4, 30⟩ }

def c4Work : Work := { title := "w4", creation_date := some ⟨1900, 1, 1⟩ }

def c4Jur : Jurisdiction :=
  { name := "Japan", id := some 3, code := some "JP", term_years_after_death := 70 }

def c6Work : Work :=
  { title := "w6", authors := [{ name := "a6", death_date := some ⟨1900, 3, 3⟩ }] }

def c6Env : Env :=
  { rulesFor := fun _ => [], jurisdictions := [], currentDate := ⟨2025, 4, 30⟩ }

def c9Work : Work := { title := "w9", status := Status.Copyrighted }

def c9Env : Env :=
  { rulesFor := fun _ => [], jurisdictions := [], currentDate := ⟨2025, 4, 30⟩ }

def c9FreshWork : Work := { title := "w9f" }

def c10Work : Work :=
  { title := "w10", authors := [{ name := "a10" }] }

def c10Env : Env :=
  { rulesFor := fun _ => [], jurisdictions := [], currentDate := ⟨2025, 4, 30⟩ }

/-- Keys of a status map, in order. -/
def keysOf (m : List (String × Status)) : List String := m.map Prod.fst

/-- Action of one aggregation step on the key list alone. -/
def keyStep (ks : List String) (j : Jurisdiction) : List String :=
  match j.code with
  | none => ks
  | some c => if c = "" then ks else if c ∈ ks then ks else ks ++ [c]

/-! Concrete instances used by claim witnesses and counterexamples
(continued). -/

def c8Work : Work :=
  { title := "w8", copyright_expiry_date := some ⟨2000, 12, 31⟩,
    status := Status.Copyrighted }

def c8Env : Env :=
  { rulesFor := fun _ => [], jurisdictions := [], currentDate := ⟨2025, 4, 30⟩ }

def c8Current : Date := ⟨2025, 4, 30⟩

def c2Rule : CopyrightRule :=
  { jurisdiction := { name := "United States" },
    rule_type := "published_before_1923", term_years := 0 }

def c2Env : Env :=
  { rulesFor := fun i => if i = 1 then [c2Rule] else [],
    jurisdictions := [], currentDate := ⟨2025, 4, 30⟩ }

def c2Jur : Jurisdiction :=
  { name := "United States", id := some 1, code := some "US",
    term_years_after_death := 70, has_special_rules := true }

def c2Work : Work :=
  { title := "w2", creation_date := some ⟨1920, 5, 1⟩,
    authors := [{ name := "b", death_date := some ⟨1990, 1, 1⟩ }] }

def c3Rule : CopyrightRule :=
  { jurisdiction := { name := "United States" },
    rule_type := "published_before_1923", term_years := 0 }

def c3Env : Env :=
  { rulesFor := fun i => if i = 1 then [c3Rule] else [],
    jurisdictions := [], currentDate := ⟨2025, 4, 30⟩ }

def c3Jur : Jurisdiction :=
  { name := "United States", id := some 1, code := some "US",
    term_years_after_death := 70, has_special_rules := true }

def c3Work : Work := { title := "w3", creation_date := some ⟨1920, 5, 1⟩ }

def c3PlainWork : Work := { title := "w3p", creation_date := some ⟨1900, 1, 1⟩ }

/-- Property named by claim C3: the optional date is absent or falls on
December 31. -/
def isNoneOrDec31 (o : Option Date) : Prop :=
  match o with
  | none => True
  | some d => d.month = 12 ∧ d.day = 31

instance (o : Option Date) : Decidable (isNoneOrDec31 o) :=
  match o with
  | none => Decidable.isTrue trivial
  | some d => inferInstanceAs (Decidable (d.month = 12 ∧ d.day = 31))

def c5Rule : CopyrightRule :=
  { jurisdiction := { name := "European Union" },
    rule_type := "collaborative_works", term_years := 70 }

def c5Env : Env :=
  { rulesFor := fun i => if i = 2 then [c5Rule] else [],
    jurisdictions := [], currentDate := ⟨2025, 4, 30⟩ }

def c5Jur : Jurisdiction :=
  { name := "European Union", id := some 2, code := some "EU",
    term_years_after_death := 70, has_special_rules := true }

def c5Work : Work :=
  { title := "w5", authors := [{ name := "x", death_date := some ⟨1960, 1, 1⟩ },
      { name := "y" }] }

/-! Basic lemmas about dates. -/

/-- Transitivity of the lexicographic date order. -/
theorem dateLeB_trans {a b c : Date} (h1 : dateLeB a b = true)
    (h2 : dateLeB b c = true) : dateLeB a c = true := by
  simp only [dateLeB, decide_eq_true_eq] at h1 h2 ⊢
  omega

/-- Year of the later of two dates is the larger year. -/
theorem year_ite_max (x d : Date) :
    (if dateLtB x d then d else x).year = Nat.max x.year d.year := by
  simp only [dateLtB]
  rcases Nat.le_total x.year d.year with h | h
  · have hm : x.year.max d.year = d.year := Nat.max_eq_right h
    rw [hm]
    split
    · rfl
    · next hn => simp only [decide_eq_true_eq] at hn; omega
  · have hm : x.year.max d.year = x.year := Nat.max_eq_left h
    rw [hm]
    split
    · next ht => simp only [decide_eq_true_eq] at ht; omega
    · rfl

/-! Lemmas about findSome?. -/

/-- A successful findSome? comes from some element of the list. -/
theorem findSome?_mem {α β : Type} {f : α → Option β} {l : List α} {b : β}
    (h : l.findSome? f = some b) : ∃ a ∈ l, f a = some b := by
  induction l with
  | nil => simp [List.findSome?_nil] at h
  | cons x t ih =>
    rw [List.findSome?_cons] at h
    cases hx : f x with
    | some v =>
      rw [hx] at h
      exact ⟨x, List.mem_cons_self x t, by rw [hx]; exact h⟩
    | none =>
      rw [hx] at h
      obtain ⟨a, ha, hfa⟩ := ih h
      exact ⟨a, List.mem_cons_of_mem x ha, hfa⟩

/-- When the searched function only ever produces one value, finding it
only needs one witness in the list. -/
theorem findSome?_of_mem_const {α β : Type} {f : α → Option β} {l : List α} {b : β}
    (hall : ∀ a, f a = none ∨ f a = some b) (hex : ∃ a ∈ l, f a = some b) :
    l.findSome? f = some b := by
  induction l with
  | nil => simp at hex
  | cons x t ih =>
    rw [List.findSome?_cons]
    rcases hall x with hx | hx
    · rw [hx]
      obtain ⟨a, ha, hfa⟩ := hex
      rcases List.mem_cons.mp ha with rfl | hat
      · rw [hx] at hfa; exact absurd hfa (by simp)
      · exact ih ⟨a, hat, hfa⟩
    · rw [hx]

/-! Lemmas about the association-list status map. -/

theorem lookupS_isSome_iff (m : List (String × Status)) (k : String) :
    (lookupS m k).isSome = true ↔ k ∈ keysOf m := by
  induction m with
  | nil => simp [lookupS, keysOf]
  | cons p t ih =>
    by_cases h : p.1 = k
    · simp [lookupS, keysOf, h]
    · simp only [lookupS, if_neg h, keysOf, List.map_cons, List.mem_cons]
      rw [ih]
      simp [keysOf, Ne.symm h]

theorem lookupS_eq_none_iff (m : List (String × Status)) (k : String) :
    lookupS m k = none ↔ k ∉ keysOf m := by
  rw [← lookupS_isSome_iff]
  cases lookupS m k <;> simp

theorem lookupS_append (m l : List (String × Status)) (k : String) :
    lookupS (m ++ l) k =
      match lookupS m k with
      | some v => some v
      | none => lookupS l k := by
  induction m with
  | nil => simp [lookupS]
  | cons p t ih =>
    by_cases h : p.1 = k
    · simp [lookupS, h]
    · simp [lookupS, h, ih]

theorem lookupS_map_replace (m : List (String × Status)) (k : String) (v : Status)
    (k' : String) :
    lookupS (m.map fun p => if p.1 = k then (k, v) else p) k' =
      if k' = k then (lookupS m k).map (fun _ => v) else lookupS m k' := by
  induction m with
  | nil => simp [lookupS]
  | cons p t ih =>
    simp only [List.map_cons]
    by_cases hpk : p.1 = k
    · by_cases hk' : k' = k
      · subst hk'; simp [lookupS, hpk]
      · simp [lookupS, hpk, hk', Ne.symm hk', ih]
    · by_cases hpk' : p.1 = k'
      · subst hpk'
        simp [lookupS, hpk]
      · simp [lookupS, hpk, hpk', ih]

theorem lookupS_insertStatus (m : List (String × Status)) (k : String) (v : Status)
    (k' : String) :
    lookupS (insertStatus m k v) k' = if k' = k then some v else lookupS m k' := by
  unfold insertStatus
  split
  · next h =>
    rw [lookupS_map_replace]
    obtain ⟨w, hw⟩ := Option.isSome_iff_exists.mp h
    by_cases hk' : k' = k <;> simp [hk', hw]
  · next h =>
    rw [lookupS_append]
    have hnone : lookupS m k = none := by
      cases hl : lookupS m k
      · rfl
      · rw [hl] at h; simp at h
    by_cases hk' : k' = k
    · subst hk'; simp [hnone, lookupS]
    · cases hl : lookupS m k' <;> simp [lookupS, Ne.symm hk', hk']

theorem keysOf_map_replace (m : List (String × Status)) (k : String) (v : Status) :
    keysOf (m.map fun p => if p.1 = k then (k, v) else p) = keysOf m := by
  induction m with
  | nil => rfl
  | cons p t ih =>
    simp only [keysOf, List.map_cons] at ih ⊢
    by_cases h : p.1 = k <;> simp [h, ih]

theorem keysOf_insertStatus (m : List (String × Status)) (k : String) (v : Status) :
    keysOf (insertStatus m k v) =
      if k ∈ keysOf m then keysOf m else keysOf m ++ [k] := by
  unfold insertStatus
  split
  · next h =>
    rw [keysOf_map_replace, if_pos ((lookupS_isSome_iff m k).mp h)]
  · next h =>
    have hk : k ∉ keysOf m := by
      rw [← lookupS_isSome_iff]
      simpa using h
    rw [if_neg hk]
    simp [keysOf]

/-! Lemmas about the latest-death-date loop. -/

/-- Folding the latest-death step from a seed date yields a date whose
year is the maximum of the seed year and the known death years. -/
theorem foldLatest_some (l : List Author) (x : Date) :
    ∃ b, l.foldl latestDeathStep (some x) = some b ∧
      b.year = (deathYears l).foldl Nat.max x.year := by
  induction l generalizing x with
  | nil => exact ⟨x, rfl, rfl⟩
  | cons a t ih =>
    cases ha : a.death_date with
    | none =>
      have hdy : deathYears (a :: t) = deathYears t := by
        simp [deathYears, List.filterMap_cons, ha]
      simp only [List.foldl_cons, latestDeathStep, ha, hdy]
      exact ih x
    | some d =>
      have hdy : deathYears (a :: t) = d.year :: deathYears t := by
        simp [deathYears, List.filterMap_cons, ha]
      have hstep : latestDeathStep (some x) a = some (if dateLtB x d then d else x) := by
        simp only [latestDeathStep, ha]
        split <;> rfl
      simp only [List.foldl_cons, hstep, hdy]
      obtain ⟨b, hb, hy⟩ := ih (if dateLtB x d then d else x)
      refine ⟨b, hb, ?_⟩
      rw [hy, year_ite_max]

/-- When some author has a known death date, the latest death date
exists and its year is the latest known death year. -/
theorem latestDeathDate_some_of_deathYears (authors : List Author)
    (h : deathYears authors ≠ []) :
    ∃ b, latestDeathDate authors = some b ∧ b.year = maxDeathYear authors := by
  induction authors with
  | nil => simp [deathYears] at h
  | cons a t ih =>
    cases ha : a.death_date with
    | none =>
      have hdy : deathYears (a :: t) = deathYears t := by
        simp [deathYears, List.filterMap_cons, ha]
      have hld : latestDeathDate (a :: t) = latestDeathDate t := by
        simp [latestDeathDate, List.foldl_cons, latestDeathStep, ha]
      rw [hdy] at h
      simpa [maxDeathYear, hdy, hld] using ih h
    | some d =>
      have hdy : deathYears (a :: t) = d.year :: deathYears t := by
        simp [deathYears, List.filterMap_cons, ha]
      have hld : latestDeathDate (a :: t) = t.foldl latestDeathStep (some d) := by
        simp [latestDeathDate, List.foldl_cons, latestDeathStep, ha]
      obtain ⟨b, hb, hy⟩ := foldLatest_some t d
      refine ⟨b, by rw [hld]; exact hb, ?_⟩
      rw [hy, maxDeathYear, hdy, List.foldl_cons]
      have hz : Nat.max 0 d.year = d.year := Nat.max_eq_right (Nat.zero_le _)
      rw [hz]

theorem deathYears_eq_nil_iff (authors : List Author) :
    deathYears authors = [] ↔ ∀ a ∈ authors, a.death_date = none := by
  unfold deathYears
  rw [List.filterMap_eq_nil_iff]
  constructor
  · intro h a ha
    have := h a ha
    cases hd : a.death_date with
    | none => rfl
    | some d => rw [hd] at this; simp at this
  · intro h a ha
    rw [h a ha]
    rfl

/-- Authors that all lack a death date fold to an empty latest date. -/
theorem latestDeathDate_eq_none_of (authors : List Author)
    (h : ∀ a ∈ authors, a.death_date = none) : latestDeathDate authors = none := by
  revert h
  induction authors with
  | nil => intro _; rfl
  | cons a t ih =>
    intro h
    have ha := h a (List.mem_cons_self a t)
    have ht : ∀ x ∈ t, x.death_date = none := fun x hx => h x (List.mem_cons_of_mem a hx)
    simp only [latestDeathDate, List.foldl_cons, latestDeathStep, ha]
    exact ih ht

theorem latestDeathDate_eq_none_iff (authors : List Author) :
    latestDeathDate authors = none ↔ ∀ a ∈ authors, a.death_date = none := by
  constructor
  · intro h a ha
    by_contra hne
    have hy : deathYears authors ≠ [] := by
      intro hnil
      exact hne ((deathYears_eq_nil_iff authors).mp hnil a ha)
    obtain ⟨b, hb, _⟩ := latestDeathDate_some_of_deathYears authors hy
    rw [h] at hb
    exact Option.noConfusion hb
  · exact latestDeathDate_eq_none_of authors

/-- A nonempty author list in which everyone has a death date produces a
latest death date. -/
theorem latestDeathDate_isSome_of_allHave (authors : List Author)
    (hne : authors ≠ []) (hall : allHaveDeathDates authors = true) :
    (latestDeathDate authors).isSome = true := by
  cases authors with
  | nil => exact absurd rfl hne
  | cons a t =>
    have ha : a.death_date.isSome = true := by
      have := List.all_eq_true.mp hall a (List.mem_cons_self a t)
      simpa [allHaveDeathDates] using this
    obtain ⟨d, hd⟩ := Option.isSome_iff_exists.mp ha
    have hld : latestDeathDate (a :: t) = t.foldl latestDeathStep (some d) := by
      simp [latestDeathDate, List.foldl_cons, latestDeathStep, hd]
    obtain ⟨b, hb, _⟩ := foldLatest_some t d
    rw [hld, hb]
    rfl

/-! Characterization of the standard calculation. -/

theorem creationFallback_eq_none_iff (w : Work) (jd : Option Jurisdiction) :
    creationFallback w jd = none ↔ w.creation_date = none := by
  unfold creationFallback
  cases hc : w.creation_date <;> simp

theorem calculateStandardExpiry_eq_none_iff (w : Work) (jd : Option Jurisdiction) :
    calculateStandardExpiry w jd = none ↔
      w.creation_date = none ∧ latestDeathDate w.authors = none := by
  unfold calculateStandardExpiry
  constructor
  · intro h
    split at h
    · next hemp =>
      have hnil : w.authors = [] := List.isEmpty_iff.mp hemp
      refine ⟨(creationFallback_eq_none_iff w jd).mp h, ?_⟩
      rw [hnil]
      rfl
    · split at h
      · exact Option.noConfusion h
      · next heq =>
        split at h
        · next hcond => exact ⟨hcond.2, heq⟩
        · exact ⟨(creationFallback_eq_none_iff w jd).mp h, heq⟩
  · rintro ⟨hc, hl⟩
    have hcf : creationFallback w jd = none := (creationFallback_eq_none_iff w jd).mpr hc
    rw [hl]
    split
    · exact hcf
    · next hemp =>
      have hne : w.authors ≠ [] := fun hn => hemp (by rw [hn]; rfl)
      have hall : allHaveDeathDates w.authors = false := by
        cases hb : allHaveDeathDates w.authors with
        | false => rfl
        | true =>
          have := latestDeathDate_isSome_of_allHave w.authors hne hb
          rw [hl] at this
          exact Bool.noConfusion this
      rw [if_pos ⟨hall, hc⟩]

/-- Life-plus-term rule of the standard calculation: with at least one
known death date the result is Dec 31 of the latest known death year
plus the applicable term. -/
theorem calculateStandardExpiry_life_term (w : Work) (jd : Option Jurisdiction)
    (h : deathYears w.authors ≠ []) :
    calculateStandardExpiry w jd = some (mkDec31 (maxDeathYear w.authors + termOf jd)) := by
  obtain ⟨b, hb, hy⟩ := latestDeathDate_some_of_deathYears w.authors h
  have hne : w.authors ≠ [] := by
    intro hn
    rw [hn] at h
    exact h rfl
  unfold calculateStandardExpiry
  rw [if_neg (by simpa [List.isEmpty_iff] using hne), hb]
  show some (mkDec31 (b.year + termOf jd)) = some (mkDec31 (maxDeathYear w.authors + termOf jd))
  rw [hy]

/-- Creation-date fallback of the standard calculation. -/
theorem calculateStandardExpiry_fallback (w : Work) (jd : Option Jurisdiction)
    (cd : Date) (hl : latestDeathDate w.authors = none) (hc : w.creation_date = some cd) :
    calculateStandardExpiry w jd = some (mkDec31 (cd.year + fallbackTerm jd)) := by
  have hcf : creationFallback w jd = some (mkDec31 (cd.year + fallbackTerm jd)) := by
    unfold creationFallback
    rw [hc]
  unfold calculateStandardExpiry
  split
  · exact hcf
  · rw [hl]
    rw [if_neg (by rintro ⟨-, hn⟩; rw [hc] at hn; exact Option.noConfusion hn)]
    exact hcf

/-! Lemmas about the special rules and calculate_expiry. -/

theorem usPre1923_eq_none (rules : List CopyrightRule) (w : Work)
    (hc : w.creation_date = none) : usPre1923 rules w = none := by
  unfold usPre1923
  rw [hc]

theorem us1923to1977_eq_none (rules : List CopyrightRule) (w : Work)
    (hc : w.creation_date = none) : us1923to1977 rules w = none := by
  unfold us1923to1977
  rw [hc]

theorem usCorporate_eq_none (rules : List CopyrightRule) (w : Work)
    (hc : w.creation_date = none) : usCorporate rules w = none := by
  unfold usCorporate
  cases w.authors with
  | nil => rfl
  | cons a t =>
    cases t with
    | nil =>
      show (if a.name.endsWith " Inc." = true then
          List.findSome? (fun r =>
            if r.rule_type = "corporate_works" then
              match w.creation_date with
              | some cd => some (mkDec31 (cd.year + r.term_years))
              | none => none
            else none) rules
        else none) = none
      by_cases hinc : a.name.endsWith " Inc." = true
      · rw [if_pos hinc]
        exact List.findSome?_eq_none_iff.mpr fun r _ => by
          rw [hc]
          split <;> rfl
      · rw [if_neg hinc]
    | cons b u => rfl

/-- US special rules all need a creation date. -/
theorem usSpecialRules_eq_none_of_bare (rules : List CopyrightRule) (w : Work)
    (hc : w.creation_date = none) : usSpecialRules rules w = none := by
  unfold usSpecialRules
  rw [usPre1923_eq_none rules w hc, us1923to1977_eq_none rules w hc,
    usCorporate_eq_none rules w hc]

theorem euAnonymous_eq_none (rules : List CopyrightRule) (w : Work)
    (hc : w.creation_date = none) : euAnonymous rules w = none := by
  unfold euAnonymous
  rw [hc]
  cases w.authors <;> rfl

/-- The collaborative branch needs a latest death date. -/
theorem euCollaborative_eq_none_of_noLatest (rules : List CopyrightRule) (w : Work)
    (hl : latestDeathDate w.authors = none) : euCollaborative rules w = none := by
  unfold euCollaborative
  split
  · exact List.findSome?_eq_none_iff.mpr fun r _ => by
      rw [hl]
      split <;> rfl
  · rfl

/-- EU special rules need a creation date or a full set of death dates. -/
theorem euSpecialRules_eq_none_of_bare (rules : List CopyrightRule) (w : Work)
    (hc : w.creation_date = none) (hl : latestDeathDate w.authors = none) :
    euSpecialRules rules w = none := by
  unfold euSpecialRules
  rw [euAnonymous_eq_none rules w hc, euCollaborative_eq_none_of_noLatest rules w hl]

/-- GB special rules need a creation date. -/
theorem gbSpecialRules_eq_none_of_bare (rules : List CopyrightRule) (w : Work)
    (hc : w.creation_date = none) : gbSpecialRules rules w = none := by
  unfold gbSpecialRules
  rw [hc]
  split <;> rfl

/-- Works with no creation date and no known death date satisfy no
special rule. -/
theorem applySpecialRules_eq_none_of_bare (env : Env) (w : Work) (j : Jurisdiction)
    (hc : w.creation_date = none) (hl : latestDeathDate w.authors = none) :
    applySpecialRules env w j = none := by
  unfold applySpecialRules
  cases j.id with
  | none => rfl
  | some jid =>
    show (if jid = 0 then none
      else if (env.rulesFor jid).isEmpty = true then none
      else if j.code = some "US" then usSpecialRules (env.rulesFor jid) w
      else if j.code = some "EU" then euSpecialRules (env.rulesFor jid) w
      else if j.code = some "GB" then gbSpecialRules (env.rulesFor jid) w
      else none) = none
    split_ifs
    · rfl
    · rfl
    · exact usSpecialRules_eq_none_of_bare _ w hc
    · exact euSpecialRules_eq_none_of_bare _ w hc hl
    · exact gbSpecialRules_eq_none_of_bare _ w hc
    · rfl

/-- Unfolding equation of calculate_expiry at a given jurisdiction. -/
theorem calculateExpiry_some (env : Env) (w : Work) (j : Jurisdiction) :
    calculateExpiry env w (some j) =
      if j.has_special_rules then
        match applySpecialRules env w j with
        | some d => some d
        | none => calculateStandardExpiry w (some j)
      else calculateStandardExpiry w (some j) := rfl

/-- Unfolding equation of calculate_expiry with no jurisdiction: the
primary jurisdiction of the work decides the path. -/
theorem calculateExpiry_none (env : Env) (w : Work) :
    calculateExpiry env w none =
      match w.primary_jurisdiction with
      | some j => calculateExpiry env w (some j)
      | none => calculateStandardExpiry w none := by
  unfold calculateExpiry
  cases w.primary_jurisdiction <;> rfl

theorem calculateExpiry_primary (env : Env) (w : Work) (p : Jurisdiction)
    (hp : w.primary_jurisdiction = some p) :
    calculateExpiry env w none = calculateExpiry env w (some p) := by
  rw [calculateExpiry_none, hp]

theorem calculateExpiry_noPrimary (env : Env) (w : Work)
    (hp : w.primary_jurisdiction = none) :
    calculateExpiry env w none = calculateStandardExpiry w none := by
  rw [calculateExpiry_none, hp]

/-- Helper for the jurisdiction-given case of calculate_expiry. -/
theorem calculateExpiry_some_eq_none_iff (env : Env) (w : Work) (j : Jurisdiction) :
    calculateExpiry env w (some j) = none ↔
      w.creation_date = none ∧ latestDeathDate w.authors = none := by
  rw [calculateExpiry_some]
  constructor
  · intro h
    split at h
    · cases hs : applySpecialRules env w j with
      | some d => rw [hs] at h; exact Option.noConfusion h
      | none =>
        rw [hs] at h
        exact (calculateStandardExpiry_eq_none_iff w (some j)).mp h
    · exact (calculateStandardExpiry_eq_none_iff w (some j)).mp h
  · rintro ⟨hc, hl⟩
    have hstd := (calculateStandardExpiry_eq_none_iff w (some j)).mpr ⟨hc, hl⟩
    have hsp := applySpecialRules_eq_none_of_bare env w j hc hl
    split
    · rw [hsp]
      exact hstd
    · exact hstd

/-- calculate_expiry yields no date exactly when neither a known death
date nor a creation date is available, whatever the jurisdiction. -/
theorem calculateExpiry_eq_none_iff (env : Env) (w : Work) (jd : Option Jurisdiction) :
    calculateExpiry env w jd = none ↔
      w.creation_date = none ∧ latestDeathDate w.authors = none := by
  cases jd with
  | some j => exact calculateExpiry_some_eq_none_iff env w j
  | none =>
    cases hp : w.primary_jurisdiction with
    | some p =>
      rw [calculateExpiry_primary env w p hp]
      exact calculateExpiry_some_eq_none_iff env w p
    | none =>
      rw [calculateExpiry_noPrimary env w hp]
      exact calculateStandardExpiry_eq_none_iff w none

/-! Claim C1: standard life-plus-term calculation. -/

/-- C1: for every work with at least one author having a known death
date and every jurisdiction whose special rules yield no date,
calculate_standard_expiry returns Dec 31 of the latest known death year
plus the term of the jurisdiction, and with no jurisdiction the global
default term 70 applies. -/
theorem C1_standard_life_plus_term (env : Env) (w : Work) (j : Jurisdiction)
    (hd : ∃ a ∈ w.authors, a.death_date.isSome = true)
    (hns : applySpecialRules env w j = none) :
    calculateStandardExpiry w (some j) =
      some (mkDec31 (maxDeathYear w.authors + j.term_years_after_death)) ∧
    calculateStandardExpiry w none = some (mkDec31 (maxDeathYear w.authors + 70)) := by
  have hy : deathYears w.authors ≠ [] := by
    intro hnil
    obtain ⟨a, ha, hsome⟩ := hd
    have hnone := (deathYears_eq_nil_iff w.authors).mp hnil a ha
    rw [hnone] at hsome
    exact Bool.noConfusion hsome
  exact ⟨calculateStandardExpiry_life_term w (some j) hy,
    calculateStandardExpiry_life_term w none hy⟩

/-- Witness for C1 at a concrete two-author work. -/
theorem C1_standard_life_plus_term_witness :
    calculateStandardExpiry c1Work (some c1Jur) = some (mkDec31 (1950 + 50)) ∧
    calculateStandardExpiry c1Work none = some (mkDec31 (1950 + 70)) :=
  C1_standard_life_plus_term c1Env c1Work c1Jur (by decide) (by decide)

/-! Claim C4 (corrected): creation-date fallback terms. -/

/-- Counterexample to C4 as stated: for a jurisdiction that is neither
US nor EU the fallback term is the jurisdiction term, not the
conservative 95 of the claim. -/
theorem C4_counterexample :
    calculateStandardExpiry c4Work (some c4Jur) = some (mkDec31 1970) ∧
    calculateStandardExpiry c4Work (some c4Jur) ≠ some (mkDec31 (1900 + 95)) := by
  decide

/-- C4 (amended): in the creation-date fallback path the term is 95 for
code US, 70 for code EU, the term_years_after_death of the jurisdiction
for any other given jurisdiction, and 95 when no jurisdiction is given;
the expiry is Dec 31 of the creation year plus that term. -/
theorem C4_creation_fallback_terms (w : Work) (j : Jurisdiction) (cd : Date)
    (hl : latestDeathDate w.authors = none) (hc : w.creation_date = some cd) :
    calculateStandardExpiry w (some j) =
      some (mkDec31 (cd.year +
        (if j.code = some "US" then 95
         else if j.code = some "EU" then 70
         else j.term_years_after_death))) ∧
    calculateStandardExpiry w none = some (mkDec31 (cd.year + 95)) :=
  ⟨calculateStandardExpiry_fallback w (some j) cd hl hc,
    calculateStandardExpiry_fallback w none cd hl hc⟩

/-- Witness for the amended C4 at the counterexample inputs. -/
theorem C4_creation_fallback_terms_witness :
    calculateStandardExpiry c4Work (some c4Jur) =
      some (mkDec31 (1900 +
        (if c4Jur.code = some "US" then 95
         else if c4Jur.code = some "EU" then 70
         else c4Jur.term_years_after_death))) ∧
    calculateStandardExpiry c4Work none = some (mkDec31 (1900 + 95)) :=
  C4_creation_fallback_terms c4Work c4Jur ⟨1900, 1, 1⟩ (by decide) (by decide)

/-! Claim C6: monotonicity of determine_status in the current date. -/

/-- C6: a work classified Public Domain at date d1 stays Public Domain
at every later date d2. -/
theorem C6_determineStatus_monotone (env : Env) (w : Work) (jd : Option Jurisdiction)
    (d1 d2 : Date) (hle : dateLeB d1 d2 = true)
    (h1 : determineStatus env w jd (some d1) = Status.PublicDomain) :
    determineStatus env w jd (some d2) = Status.PublicDomain := by
  unfold determineStatus at h1 ⊢
  cases hc : cachedStatus w jd with
  | some s =>
    rw [hc] at h1
    exact h1
  | none =>
    rw [hc] at h1
    cases hE : calculateExpiry env w jd with
    | some e =>
      rw [hE] at h1
      have h1' : (if dateLeB e d1 = true then Status.PublicDomain
          else Status.Copyrighted) = Status.PublicDomain := h1
      show (if dateLeB e d2 = true then Status.PublicDomain
          else Status.Copyrighted) = Status.PublicDomain
      by_cases he1 : dateLeB e d1 = true
      · rw [if_pos (dateLeB_trans he1 hle)]
      · rw [if_neg he1] at h1'
        exact absurd h1' (by decide)
    | none =>
      rw [hE] at h1
      exact h1

/-- Witness for C6: Public Domain in 2000 stays Public Domain in 2010. -/
theorem C6_determineStatus_monotone_witness :
    determineStatus c6Env c6Work none (some ⟨2010, 1, 1⟩) = Status.PublicDomain :=
  C6_determineStatus_monotone c6Env c6Work none ⟨2000, 1, 1⟩ ⟨2010, 1, 1⟩
    (by decide) (by decide)

/-! Claim C9 (corrected): works with no authors and no creation date. -/

/-- Counterexample to C9 as stated: a zero-author, no-creation-date work
carrying a cached Copyrighted status resolves to that cached status, not
to Unknown, even though no expiry is computable. -/
theorem C9_counterexample :
    c9Work.authors = [] ∧ c9Work.creation_date = none ∧
    calculateExpiry c9Env c9Work none = none ∧
    determineStatus c9Env c9Work none none = Status.Copyrighted := by
  decide

/-- C9 (amended): for every work with zero authors and no creation date
calculate_expiry returns none for every possibly absent jurisdiction,
and determine_status returns Unknown provided no cached status applies. -/
theorem C9_no_authors_no_creation (env : Env) (w : Work) (jd : Option Jurisdiction)
    (d : Option Date) (ha : w.authors = []) (hc : w.creation_date = none)
    (hcache : cachedStatus w jd = none) :
    calculateExpiry env w jd = none ∧ determineStatus env w jd d = Status.Unknown := by
  have hl : latestDeathDate w.authors = none := by rw [ha]; rfl
  have hE : calculateExpiry env w jd = none :=
    (calculateExpiry_eq_none_iff env w jd).mpr ⟨hc, hl⟩
  refine ⟨hE, ?_⟩
  unfold determineStatus
  rw [hcache, hE, hc]

/-- Witness for the amended C9 at a freshly constructed work. -/
theorem C9_no_authors_no_creation_witness :
    calculateExpiry c9Env c9FreshWork none = none ∧
    determineStatus c9Env c9FreshWork none none = Status.Unknown :=
  C9_no_authors_no_creation c9Env c9FreshWork none none rfl rfl rfl

/-! Claim C10: an absent expiry forces an absent creation date, so the
historical fallbacks of determine_status cannot fire. -/

/-- C10: whenever calculate_expiry returns none the work has no creation
date, hence the pre-1875 and US pre-1927 fallback branches of
determine_status are unreachable and, with no cached status applying,
the result is Unknown. -/
theorem C10_no_expiry_no_creation (env : Env) (w : Work) (jd : Option Jurisdiction)
    (d : Option Date) (hE : calculateExpiry env w jd = none)
    (hcache : cachedStatus w jd = none) :
    w.creation_date = none ∧ determineStatus env w jd d = Status.Unknown := by
  have hc : w.creation_date = none := ((calculateExpiry_eq_none_iff env w jd).mp hE).1
  refine ⟨hc, ?_⟩
  unfold determineStatus
  rw [hcache, hE, hc]

/-- Witness for C10 at a work with one author lacking a death date. -/
theorem C10_no_expiry_no_creation_witness :
    c10Work.creation_date = none ∧
    determineStatus c10Env c10Work none none = Status.Unknown :=
  C10_no_expiry_no_creation c10Env c10Work none none (by decide) rfl

/-! Claim C2: strict precedence of special rules. -/

/-- C2: a work created in 1920 under a US jurisdiction with special
rules, a persisted nonzero id, and a published_before_1923 rule in its
rule set makes calculate_expiry return the fixed date Jan 1 1923,
whatever the authors. -/
theorem C2_special_rule_precedence (env : Env) (w : Work) (j : Jurisdiction)
    (cd : Date) (jid : Nat)
    (hcd : w.creation_date = some cd) (hyear : cd.year = 1920)
    (hcode : j.code = some "US") (hspec : j.has_special_rules = true)
    (hid : j.id = some jid) (hpos : jid ≠ 0)
    (hrule : ∃ r ∈ env.rulesFor jid, r.rule_type = "published_before_1923") :
    calculateExpiry env w (some j) = some ⟨1923, 1, 1⟩ := by
  have hne : env.rulesFor jid ≠ [] := by
    obtain ⟨r, hr, -⟩ := hrule
    intro hnil
    rw [hnil] at hr
    simp at hr
  have hb1 : usPre1923 (env.rulesFor jid) w = some ⟨1923, 1, 1⟩ := by
    unfold usPre1923
    rw [hcd]
    show (if cd.year < 1923 then
        List.findSome? (fun r =>
          if r.rule_type = "published_before_1923" then some (Date.mk 1923 1 1) else none)
          (env.rulesFor jid)
      else none) = some (Date.mk 1923 1 1)
    rw [if_pos (by omega : cd.year < 1923)]
    apply findSome?_of_mem_const
    · intro r
      split
      · exact Or.inr rfl
      · exact Or.inl rfl
    · obtain ⟨r, hr, ht⟩ := hrule
      exact ⟨r, hr, by rw [if_pos ht]⟩
  have hus : usSpecialRules (env.rulesFor jid) w = some ⟨1923, 1, 1⟩ := by
    unfold usSpecialRules
    rw [hb1]
  have hsp : applySpecialRules env w j = some ⟨1923, 1, 1⟩ := by
    unfold applySpecialRules
    rw [hid]
    show (if jid = 0 then none
      else if (env.rulesFor jid).isEmpty = true then none
      else if j.code = some "US" then usSpecialRules (env.rulesFor jid) w
      else if j.code = some "EU" then euSpecialRules (env.rulesFor jid) w
      else if j.code = some "GB" then gbSpecialRules (env.rulesFor jid) w
      else none) = some ⟨1923, 1, 1⟩
    rw [if_neg hpos, if_neg (by simpa [List.isEmpty_iff] using hne), if_pos hcode]
    exact hus
  rw [calculateExpiry_some, if_pos hspec, hsp]

/-- Witness for C2; the sole author dies in 1990, whose life-plus-70
standard expiry 2060 is later than the special-rule result. -/
theorem C2_special_rule_precedence_witness :
    calculateExpiry c2Env c2Work (some c2Jur) = some ⟨1923, 1, 1⟩ ∧
    calculateStandardExpiry c2Work (some c2Jur) = some ⟨2060, 12, 31⟩ :=
  ⟨C2_special_rule_precedence c2Env c2Work c2Jur ⟨1920, 5, 1⟩ 1 rfl rfl rfl rfl rfl
    (by decide) (by decide), by decide⟩

/-! Claim C5: a missing death date voids the EU collaborative branch. -/

/-- C5: for a work with more than one author of which at least one lacks
a death date and at least one has one, under an EU jurisdiction whose
rule set holds a collaborative_works rule, apply_special_rules returns
none and the subsequent standard calculation uses the latest known death
year with the jurisdiction term. -/
theorem C5_collaborative_missing_death (env : Env) (w : Work) (j : Jurisdiction)
    (jid : Nat) (hlen : 1 < w.authors.length)
    (hmiss : ∃ a ∈ w.authors, a.death_date = none)
    (hknown : ∃ a ∈ w.authors, a.death_date.isSome = true)
    (hcode : j.code = some "EU") (hid : j.id = some jid)
    (hrule : ∃ r ∈ env.rulesFor jid, r.rule_type = "collaborative_works") :
    applySpecialRules env w j = none ∧
    calculateStandardExpiry w (some j) =
      some (mkDec31 (maxDeathYear w.authors + j.term_years_after_death)) := by
  constructor
  · have hall : allHaveDeathDates w.authors = false := by
      obtain ⟨a, ha, hnone⟩ := hmiss
      apply List.all_eq_false.mpr
      exact ⟨a, ha, by simp [hnone]⟩
    have heu2 : euCollaborative (env.rulesFor jid) w = none := by
      unfold euCollaborative
      by_cases hl1 : 1 < w.authors.length
      · rw [if_pos hl1]
        apply List.findSome?_eq_none_iff.mpr
        intro r _
        split
        · rw [hall]
          cases latestDeathDate w.authors <;> rfl
        · rfl
      · rw [if_neg hl1]
    have heu1 : euAnonymous (env.rulesFor jid) w = none := by
      unfold euAnonymous
      cases hA : w.authors with
      | nil => rw [hA] at hlen; simp at hlen
      | cons a t => rfl
    have heu : euSpecialRules (env.rulesFor jid) w = none := by
      unfold euSpecialRules
      rw [heu1, heu2]
    unfold applySpecialRules
    rw [hid]
    show (if jid = 0 then none
      else if (env.rulesFor jid).isEmpty = true then none
      else if j.code = some "US" then usSpecialRules (env.rulesFor jid) w
      else if j.code = some "EU" then euSpecialRules (env.rulesFor jid) w
      else if j.code = some "GB" then gbSpecialRules (env.rulesFor jid) w
      else none) = none
    by_cases h0 : jid = 0
    · rw [if_pos h0]
    · rw [if_neg h0]
      by_cases hemp : (env.rulesFor jid).isEmpty = true
      · rw [if_pos hemp]
      · rw [if_neg hemp, if_neg (by rw [hcode]; decide), if_pos hcode]
        exact heu
  · have hy : deathYears w.authors ≠ [] := by
      intro hnil
      obtain ⟨a, ha, hsome⟩ := hknown
      have hnone := (deathYears_eq_nil_iff w.authors).mp hnil a ha
      rw [hnone] at hsome
      exact Bool.noConfusion hsome
    exact calculateStandardExpiry_life_term w (some j) hy

/-- Witness for C5: two authors, one death date known. -/
theorem C5_collaborative_missing_death_witness :
    applySpecialRules c5Env c5Work c5Jur = none ∧
    calculateStandardExpiry c5Work (some c5Jur) =
      some (mkDec31 (maxDeathYear c5Work.authors + c5Jur.term_years_after_death)) :=
  C5_collaborative_missing_death c5Env c5Work c5Jur 2 (by decide) (by decide)
    (by decide) rfl rfl (by decide)

/-! Shape of every date the expiry calculator can produce. -/

theorem creationFallback_shape (w : Work) (jd : Option Jurisdiction) (d : Date)
    (h : creationFallback w jd = some d) : d.month = 12 ∧ d.day = 31 := by
  unfold creationFallback at h
  split at h
  · rw [Option.some.injEq] at h
    subst h
    exact ⟨rfl, rfl⟩
  · exact Option.noConfusion h

theorem calculateStandardExpiry_shape (w : Work) (jd : Option Jurisdiction) (d : Date)
    (h : calculateStandardExpiry w jd = some d) : d.month = 12 ∧ d.day = 31 := by
  unfold calculateStandardExpiry at h
  split at h
  · exact creationFallback_shape w jd d h
  · split at h
    · rw [Option.some.injEq] at h
      subst h
      exact ⟨rfl, rfl⟩
    · split at h
      · exact Option.noConfusion h
      · exact creationFallback_shape w jd d h

theorem usPre1923_shape (rules : List CopyrightRule) (w : Work) (d : Date)
    (h : usPre1923 rules w = some d) : d = ⟨1923, 1, 1⟩ := by
  unfold usPre1923 at h
  split at h
  · split at h
    · obtain ⟨r, -, hf⟩ := findSome?_mem h
      split at hf
      · rw [Option.some.injEq] at hf
        exact hf.symm
      · exact Option.noConfusion hf
    · exact Option.noConfusion h
  · exact Option.noConfusion h

theorem us1923to1977_shape (rules : List CopyrightRule) (w : Work) (d : Date)
    (h : us1923to1977 rules w = some d) : d.month = 12 ∧ d.day = 31 := by
  unfold us1923to1977 at h
  split at h
  · split at h
    · obtain ⟨r, -, hf⟩ := findSome?_mem h
      split at hf
      · rw [Option.some.injEq] at hf
        subst hf
        exact ⟨rfl, rfl⟩
      · exact Option.noConfusion hf
    · exact Option.noConfusion h
  · exact Option.noConfusion h

theorem usCorporate_shape (rules : List CopyrightRule) (w : Work) (d : Date)
    (h : usCorporate rules w = some d) : d.month = 12 ∧ d.day = 31 := by
  unfold usCorporate at h
  split at h
  · split at h
    · obtain ⟨r, -, hf⟩ := findSome?_mem h
      split at hf
      · split at hf
        · rw [Option.some.injEq] at hf
          subst hf
          exact ⟨rfl, rfl⟩
        · exact Option.noConfusion hf
      · exact Option.noConfusion hf
    · exact Option.noConfusion h
  · exact Option.noConfusion h

theorem usSpecialRules_shape (rules : List CopyrightRule) (w : Work) (d : Date)
    (h : usSpecialRules rules w = some d) :
    d = ⟨1923, 1, 1⟩ ∨ (d.month = 12 ∧ d.day = 31) := by
  unfold usSpecialRules at h
  split at h
  · next d1 heq =>
    rw [Option.some.injEq] at h
    subst h
    exact Or.inl (usPre1923_shape rules w d1 heq)
  · split at h
    · next d2 heq =>
      rw [Option.some.injEq] at h
      subst h
      exact Or.inr (us1923to1977_shape rules w d2 heq)
    · exact Or.inr (usCorporate_shape rules w d h)

theorem euAnonymous_shape (rules : List CopyrightRule) (w : Work) (d : Date)
    (h : euAnonymous rules w = some d) : d.month = 12 ∧ d.day = 31 := by
  unfold euAnonymous at h
  split at h
  · obtain ⟨r, -, hf⟩ := findSome?_mem h
    split at hf
    · rw [Option.some.injEq] at hf
      subst hf
      exact ⟨rfl, rfl⟩
    · exact Option.noConfusion hf
  · exact Option.noConfusion h

theorem euCollaborative_shape (rules : List CopyrightRule) (w : Work) (d : Date)
    (h : euCollaborative rules w = some d) : d.month = 12 ∧ d.day = 31 := by
  unfold euCollaborative at h
  split at h
  · obtain ⟨r, -, hf⟩ := findSome?_mem h
    split at hf
    · split at hf
      · rw [Option.some.injEq] at hf
        subst hf
        exact ⟨rfl, rfl⟩
      · exact Option.noConfusion hf
    · exact Option.noConfusion hf
  · exact Option.noConfusion h

theorem euSpecialRules_shape (rules : List CopyrightRule) (w : Work) (d : Date)
    (h : euSpecialRules rules w = some d) : d.month = 12 ∧ d.day = 31 := by
  unfold euSpecialRules at h
  split at h
  · next d1 heq =>
    rw [Option.some.injEq] at h
    subst h
    exact euAnonymous_shape rules w d1 heq
  · exact euCollaborative_shape rules w d h

theorem gbSpecialRules_shape (rules : List CopyrightRule) (w : Work) (d : Date)
    (h : gbSpecialRules rules w = some d) : d.month = 12 ∧ d.day = 31 := by
  unfold gbSpecialRules at h
  split at h
  · split at h
    · obtain ⟨r, -, hf⟩ := findSome?_mem h
      split at hf
      · rw [Option.some.injEq] at hf
        subst hf
        exact ⟨rfl, rfl⟩
      · exact Option.noConfusion hf
    · exact Option.noConfusion h
  · exact Option.noConfusion h

theorem applySpecialRules_shape (env : Env) (w : Work) (j : Jurisdiction) (d : Date)
    (h : applySpecialRules env w j = some d) :
    d = ⟨1923, 1, 1⟩ ∨ (d.month = 12 ∧ d.day = 31) := by
  unfold applySpecialRules at h
  split at h
  · exact Option.noConfusion h
  · split_ifs at h
    · exact usSpecialRules_shape _ w d h
    · exact Or.inr (euSpecialRules_shape _ w d h)
    · exact Or.inr (gbSpecialRules_shape _ w d h)

theorem calculateExpirySome_shape (env : Env) (w : Work) (j : Jurisdiction) (d : Date)
    (h : calculateExpiry env w (some j) = some d) :
    d = ⟨1923, 1, 1⟩ ∨ (d.month = 12 ∧ d.day = 31) := by
  rw [calculateExpiry_some] at h
  split at h
  · split at h
    · next d1 heq =>
      rw [Option.some.injEq] at h
      subst h
      exact applySpecialRules_shape env w j d1 heq
    · exact Or.inr (calculateStandardExpiry_shape w (some j) d h)
  · exact Or.inr (calculateStandardExpiry_shape w (some j) d h)

/-! Claim C3 (corrected): shape of calculate_expiry results. -/

/-- Counterexample to C3 as stated: the US published_before_1923 rule
makes calculate_expiry return Jan 1 1923, which is not a December 31
date. -/
theorem C3_counterexample :
    calculateExpiry c3Env c3Work (some c3Jur) = some ⟨1923, 1, 1⟩ ∧
    ¬ isNoneOrDec31 (calculateExpiry c3Env c3Work (some c3Jur)) := by
  decide

/-- C3 (amended): every date produced by calculate_expiry is either the
fixed sentinel Jan 1 1923 of the US published_before_1923 rule or falls
on December 31. -/
theorem C3_expiry_shape (env : Env) (w : Work) (jd : Option Jurisdiction) (d : Date)
    (h : calculateExpiry env w jd = some d) :
    d = ⟨1923, 1, 1⟩ ∨ (d.month = 12 ∧ d.day = 31) := by
  cases jd with
  | some j => exact calculateExpirySome_shape env w j d h
  | none =>
    rw [calculateExpiry_none] at h
    split at h
    · next j heq => exact calculateExpirySome_shape env w j d h
    · exact Or.inr (calculateStandardExpiry_shape w none d h)

/-- Witness for the amended C3 on the December 31 side. -/
theorem C3_expiry_shape_witness :
    (⟨1995, 12, 31⟩ : Date) = ⟨1923, 1, 1⟩ ∨
    ((⟨1995, 12, 31⟩ : Date).month = 12 ∧ (⟨1995, 12, 31⟩ : Date).day = 31) :=
  C3_expiry_shape c3Env c3PlainWork none ⟨1995, 12, 31⟩ (by decide)

/-! Claim C8 (corrected): days until expiry. -/

/-- determine_status never reads the stored expiry field. -/
theorem determineStatus_ced (env : Env) (w : Work) (x : Option Date)
    (jd : Option Jurisdiction) (d : Option Date) :
    determineStatus env { w with copyright_expiry_date := x } jd d =
      determineStatus env w jd d := rfl

/-- The expiry the days helper works from is `expiryResolved`. -/
theorem gduWork_ced (env : Env) (w : Work) :
    (gduWork env w none).copyright_expiry_date = expiryResolved env w none := by
  unfold gduWork expiryResolved
  cases hced : w.copyright_expiry_date with
  | some e =>
    rw [if_neg (by simp)]
    exact hced
  | none => rfl

/-- The caching mutation of get_days_until_expiry does not change the
status classification. -/
theorem determineStatus_gduWork (env : Env) (w : Work) (jd : Option Jurisdiction)
    (d : Option Date) :
    determineStatus env (gduWork env w jd) jd d = determineStatus env w jd d := by
  unfold gduWork
  cases jd with
  | some j => rfl
  | none =>
    show determineStatus env
      (if w.copyright_expiry_date.isNone = true then
        { w with copyright_expiry_date := calculateExpiry env w none }
      else w) none d = determineStatus env w none d
    split
    · exact determineStatus_ced env w _ none d
    · rfl

/-- Counterexample to C8 as stated: a cached past expiry together with a
cached Copyrighted status makes get_days_until_expiry return none even
though the status is not Public Domain and the expiry is known. -/
theorem C8_counterexample :
    getDaysUntilExpiry c8Env c8Work none (some c8Current) = none ∧
    determineStatus c8Env c8Work none (some c8Current) ≠ Status.PublicDomain ∧
    expiryResolved c8Env c8Work none ≠ none := by
  decide

/-- C8 (amended): get_days_until_expiry returns none exactly when the
resolved expiry is unknown, the classified status is Public Domain, or
the day difference is negative; otherwise it returns the non-negative
day difference between the resolved expiry and the current date. -/
theorem C8_getDays_characterization (env : Env) (w : Work)
    (jd : Option Jurisdiction) (d : Date) :
    getDaysUntilExpiry env w jd (some d) =
      match expiryResolved env w jd with
      | none => none
      | some e =>
        if determineStatus env w jd (some d) = Status.PublicDomain then none
        else if 0 ≤ e.toDays - d.toDays then some (e.toDays - d.toDays)
        else none := by
  unfold getDaysUntilExpiry
  rw [determineStatus_gduWork]
  cases jd with
  | some j => rfl
  | none =>
    rw [gduWork_ced]
    rfl

/-! Structure of the aggregated status map, towards idempotence of
update_work_status. -/

theorem keyStep_none {ks : List String} {j : Jurisdiction} (hx : j.code = none) :
    keyStep ks j = ks := by
  unfold keyStep
  rw [hx]

theorem keyStep_some {ks : List String} {j : Jurisdiction} {c : String}
    (hx : j.code = some c) :
    keyStep ks j = if c = "" then ks else if c ∈ ks then ks else ks ++ [c] := by
  unfold keyStep
  rw [hx]

theorem statusMapStep_none (f : Jurisdiction → Status) (m : List (String × Status))
    {j : Jurisdiction} (hx : j.code = none) : statusMapStep f m j = m := by
  unfold statusMapStep
  rw [hx]

theorem statusMapStep_some (f : Jurisdiction → Status) (m : List (String × Status))
    {j : Jurisdiction} {c : String} (hx : j.code = some c) :
    statusMapStep f m j = if c = "" then m else insertStatus m c (f j) := by
  unfold statusMapStep
  rw [hx]

theorem keysOf_statusMapStep (f : Jurisdiction → Status) (m : List (String × Status))
    (j : Jurisdiction) : keysOf (statusMapStep f m j) = keyStep (keysOf m) j := by
  cases hx : j.code with
  | none => rw [statusMapStep_none f m hx, keyStep_none hx]
  | some c =>
    rw [statusMapStep_some f m hx, keyStep_some hx]
    by_cases hc : c = ""
    · rw [if_pos hc, if_pos hc]
    · rw [if_neg hc, if_neg hc, keysOf_insertStatus]

theorem keysOf_foldl_statusMapStep (f : Jurisdiction → Status) (js : List Jurisdiction)
    (acc : List (String × Status)) :
    keysOf (js.foldl (statusMapStep f) acc) = js.foldl keyStep (keysOf acc) := by
  induction js generalizing acc with
  | nil => rfl
  | cons x t ih =>
    rw [List.foldl_cons, List.foldl_cons, ← keysOf_statusMapStep f acc x]
    exact ih _

theorem mem_keyStep_mono {c : String} {ks : List String} (j : Jurisdiction)
    (h : c ∈ ks) : c ∈ keyStep ks j := by
  cases hx : j.code with
  | none => rw [keyStep_none hx]; exact h
  | some e =>
    rw [keyStep_some hx]
    by_cases he : e = ""
    · rw [if_pos he]; exact h
    · rw [if_neg he]
      by_cases hm : e ∈ ks
      · rw [if_pos hm]; exact h
      · rw [if_neg hm]; exact List.mem_append_left _ h

theorem mem_foldl_keyStep_mono {c : String} (js : List Jurisdiction)
    (ks : List String) (h : c ∈ ks) : c ∈ js.foldl keyStep ks := by
  induction js generalizing ks with
  | nil => exact h
  | cons x t ih => exact ih _ (mem_keyStep_mono x h)

theorem mem_foldl_keyStep_of {c : String} {j : Jurisdiction} (js : List Jurisdiction)
    (ks : List String) (hj : j ∈ js) (hcode : j.code = some c) (hc : c ≠ "") :
    c ∈ js.foldl keyStep ks := by
  induction js generalizing ks with
  | nil => simp at hj
  | cons x t ih =>
    rw [List.foldl_cons]
    rcases List.mem_cons.mp hj with rfl | ht
    · apply mem_foldl_keyStep_mono
      rw [keyStep_some hcode, if_neg hc]
      by_cases hm : c ∈ ks
      · rw [if_pos hm]; exact hm
      · rw [if_neg hm]
        exact List.mem_append_right _ (by simp)
    · exact ih _ ht

theorem nodup_keyStep {ks : List String} (j : Jurisdiction) (h : ks.Nodup) :
    (keyStep ks j).Nodup := by
  cases hx : j.code with
  | none => rw [keyStep_none hx]; exact h
  | some c =>
    rw [keyStep_some hx]
    by_cases hc : c = ""
    · rw [if_pos hc]; exact h
    · rw [if_neg hc]
      by_cases hm : c ∈ ks
      · rw [if_pos hm]; exact h
      · rw [if_neg hm]
        simp [List.nodup_append, h, hm]

theorem nodup_foldl_keyStep (js : List Jurisdiction) (ks : List String)
    (h : ks.Nodup) : (js.foldl keyStep ks).Nodup := by
  induction js generalizing ks with
  | nil => exact h
  | cons x t ih => exact ih _ (nodup_keyStep x h)

theorem mem_insertStatus {m : List (String × Status)} {k : String} {v : Status}
    {p : String × Status} (h : p ∈ insertStatus m k v) : p ∈ m ∨ p = (k, v) := by
  unfold insertStatus at h
  split at h
  · obtain ⟨q, hq, hfq⟩ := List.mem_map.mp h
    by_cases hqk : q.1 = k
    · rw [if_pos hqk] at hfq
      exact Or.inr hfq.symm
    · rw [if_neg hqk] at hfq
      exact Or.inl (hfq ▸ hq)
  · rcases List.mem_append.mp h with hm | hs
    · exact Or.inl hm
    · exact Or.inr (List.mem_singleton.mp hs)

theorem foldl_statusMapStep_agree (M : List (String × Status))
    (f : Jurisdiction → Status) (js : List Jurisdiction) (acc : List (String × Status))
    (hacc : ∀ p ∈ acc, lookupS M p.1 = some p.2)
    (hf : ∀ j ∈ js, ∀ c, j.code = some c → c ≠ "" → lookupS M c = some (f j)) :
    ∀ p ∈ js.foldl (statusMapStep f) acc, lookupS M p.1 = some p.2 := by
  induction js generalizing acc with
  | nil => exact hacc
  | cons x t ih =>
    rw [List.foldl_cons]
    apply ih
    · intro p hp
      cases hx : x.code with
      | none => rw [statusMapStep_none f acc hx] at hp; exact hacc p hp
      | some c =>
        rw [statusMapStep_some f acc hx] at hp
        by_cases hc : c = ""
        · rw [if_pos hc] at hp; exact hacc p hp
        · rw [if_neg hc] at hp
          rcases mem_insertStatus hp with hm | hpe
          · exact hacc p hm
          · rw [hpe]
            exact hf x (List.mem_cons_self x t) c hx hc
    · intro j hj
      exact hf j (List.mem_cons_of_mem x hj)

theorem keysOf_mem_ne_nil {m : List (String × Status)} {c : String}
    (h : c ∈ keysOf m) : m.isEmpty = false := by
  cases m with
  | nil => simp [keysOf] at h
  | cons p t => rfl

/-- Association lists with no duplicate keys are determined by their key
list and their lookups. -/
theorem assoc_ext (M : List (String × Status)) (hn : (keysOf M).Nodup)
    (m : List (String × Status)) (hk : keysOf m = keysOf M)
    (ha : ∀ p ∈ m, lookupS M p.1 = some p.2) : m = M := by
  induction M generalizing m with
  | nil =>
    have hnil : keysOf m = [] := hk
    unfold keysOf at hnil
    exact List.map_eq_nil_iff.mp hnil
  | cons q t ih =>
    cases m with
    | nil =>
      have : ([] : List String) = q.1 :: keysOf t := hk
      exact absurd this (by simp)
    | cons p m' =>
      have hk' : p.1 :: keysOf m' = q.1 :: keysOf t := hk
      injection hk' with h1 h2
      have hp : lookupS (q :: t) p.1 = some p.2 := ha p (List.mem_cons_self _ _)
      have hq : lookupS (q :: t) p.1 = some q.2 := by
        show (if q.1 = p.1 then some q.2 else lookupS t p.1) = some q.2
        rw [if_pos h1.symm]
      have hpv : p.2 = q.2 := by
        rw [hp] at hq
        injection hq
      have hpq : p = q := Prod.ext h1 hpv
      have hnodup := List.nodup_cons.mp hn
      have ha' : ∀ r ∈ m', lookupS t r.1 = some r.2 := by
        intro r hr
        have hmem : r.1 ∈ keysOf m' := List.mem_map.mpr ⟨r, hr, rfl⟩
        have hne : r.1 ≠ q.1 := by
          intro he
          rw [h2, he] at hmem
          exact hnodup.1 hmem
        have hlk := ha r (List.mem_cons_of_mem p hr)
        rw [show lookupS (q :: t) r.1 = lookupS t r.1 from by
          show (if q.1 = r.1 then some q.2 else lookupS t r.1) = lookupS t r.1
          rw [if_neg (fun he => hne he.symm)]] at hlk
        exact hlk
      have hm' : m' = t := ih hnodup.2 m' h2 ha'
      rw [hpq, hm']

/-- Rebuilding the status map from values already cached in an earlier
map reproduces that map. -/
theorem buildStatusMap_cached (f1 f2 : Jurisdiction → Status) (js : List Jurisdiction)
    (h2 : ∀ j ∈ js, ∀ c, j.code = some c → c ≠ "" →
      lookupS (buildStatusMap f1 js) c = some (f2 j)) :
    buildStatusMap f2 js = buildStatusMap f1 js := by
  apply assoc_ext
  · show (keysOf (buildStatusMap f1 js)).Nodup
    unfold buildStatusMap
    rw [keysOf_foldl_statusMapStep]
    exact nodup_foldl_keyStep js _ List.nodup_nil
  · show keysOf (buildStatusMap f2 js) = keysOf (buildStatusMap f1 js)
    unfold buildStatusMap
    rw [keysOf_foldl_statusMapStep, keysOf_foldl_statusMapStep]
  · show ∀ p ∈ buildStatusMap f2 js, lookupS (buildStatusMap f1 js) p.1 = some p.2
    unfold buildStatusMap
    apply foldl_statusMapStep_agree
    · intro p hp
      simp at hp
    · intro j hj c hcode hc
      exact h2 j hj c hcode hc

/-! Field equations of update_work_status. -/

theorem updateWorkStatus_authors (env : Env) (w : Work) :
    (updateWorkStatus env w).authors = w.authors := rfl

theorem updateWorkStatus_creation (env : Env) (w : Work) :
    (updateWorkStatus env w).creation_date = w.creation_date := rfl

theorem updateWorkStatus_ced (env : Env) (w : Work) :
    (updateWorkStatus env w).copyright_expiry_date = globalExpiry env w := rfl

theorem updateWorkStatus_status (env : Env) (w : Work) :
    (updateWorkStatus env w).status = determineStatus env w none none := rfl

theorem updateWorkStatus_sbj (env : Env) (w : Work) :
    (updateWorkStatus env w).status_by_jurisdiction =
      calculateMultiJurisdictionStatus env
        { w with
            copyright_expiry_date := globalExpiry env w,
            status := determineStatus env w none none }
        (some env.jurisdictions) := rfl

/-- A jurisdiction-less Unknown classification means no expiry was
computable and no creation date exists. -/
theorem determineStatus_unknown_no_jur (env : Env) (w : Work) (d : Option Date)
    (h : determineStatus env w none d = Status.Unknown) :
    calculateExpiry env w none = none ∧ w.creation_date = none := by
  unfold determineStatus at h
  cases hc : cachedStatus w none with
  | some s =>
    rw [hc] at h
    have h2 : s = Status.Unknown := h
    have hc' : (if w.status ≠ Status.Unknown then some w.status else none) = some s := hc
    split at hc'
    · next hne =>
      injection hc' with hs
      rw [hs, h2] at hne
      exact absurd rfl hne
    · exact Option.noConfusion hc'
  | none =>
    rw [hc] at h
    cases hE : calculateExpiry env w none with
    | some e =>
      rw [hE] at h
      have h' : (if dateLeB e (d.getD env.currentDate) = true then Status.PublicDomain
          else Status.Copyrighted) = Status.Unknown := h
      split at h' <;> exact Status.noConfusion h'
    | none =>
      exact ⟨rfl, ((calculateExpiry_eq_none_iff env w none).mp hE).1⟩

/-- Step 1 of a second update pass finds the expiry already settled:
recomputation cannot change it. -/
theorem expiry_update_stable (env : Env) (w : Work) :
    globalExpiry env (updateWorkStatus env w) =
      (updateWorkStatus env w).copyright_expiry_date := by
  by_cases hn : (updateWorkStatus env w).copyright_expiry_date.isNone = true
  · have hunone : (updateWorkStatus env w).copyright_expiry_date = none :=
      Option.isNone_iff_eq_none.mp hn
    have hgw : globalExpiry env w = none := by
      rw [← updateWorkStatus_ced env w]
      exact hunone
    have hcalc : calculateExpiry env w none = none := by
      unfold globalExpiry at hgw
      split at hgw
      · exact hgw
      · next hni => exact absurd (by rw [hgw]; rfl) hni
    obtain ⟨hcr, hld⟩ := (calculateExpiry_eq_none_iff env w none).mp hcalc
    have hcalcu : calculateExpiry env (updateWorkStatus env w) none = none := by
      apply (calculateExpiry_eq_none_iff env _ none).mpr
      constructor
      · rw [updateWorkStatus_creation]
        exact hcr
      · rw [updateWorkStatus_authors]
        exact hld
    unfold globalExpiry
    rw [if_pos hn, hcalcu, hunone]
  · unfold globalExpiry
    rw [if_neg hn]

/-- Step 2 of a second update pass reproduces the stored status. -/
theorem status_update_stable (env : Env) (w : Work) :
    determineStatus env (updateWorkStatus env w) none none =
      (updateWorkStatus env w).status := by
  by_cases hs : determineStatus env w none none = Status.Unknown
  · obtain ⟨hEw, hcrw⟩ := determineStatus_unknown_no_jur env w none hs
    obtain ⟨hcr, hld⟩ := (calculateExpiry_eq_none_iff env w none).mp hEw
    have hEu : calculateExpiry env (updateWorkStatus env w) none = none := by
      apply (calculateExpiry_eq_none_iff env _ none).mpr
      constructor
      · rw [updateWorkStatus_creation]
        exact hcr
      · rw [updateWorkStatus_authors]
        exact hld
    have hcru : (updateWorkStatus env w).creation_date = none := by
      rw [updateWorkStatus_creation]
      exact hcr
    have hst : (updateWorkStatus env w).status = Status.Unknown := by
      rw [updateWorkStatus_status]
      exact hs
    have hcache : cachedStatus (updateWorkStatus env w) none = none := by
      show (if (updateWorkStatus env w).status ≠ Status.Unknown then
          some (updateWorkStatus env w).status else none) = none
      rw [if_neg (by simp [hst])]
    unfold determineStatus
    rw [hcache, hEu, hcru, hst]
  · have hst : (updateWorkStatus env w).status ≠ Status.Unknown := by
      rw [updateWorkStatus_status]
      exact hs
    have hcache : cachedStatus (updateWorkStatus env w) none =
        some (updateWorkStatus env w).status := by
      show (if (updateWorkStatus env w).status ≠ Status.Unknown then
          some (updateWorkStatus env w).status else none) = _
      rw [if_pos hst]
    unfold determineStatus
    rw [hcache]

theorem resolveJurisdictions_self (env : Env) :
    resolveJurisdictions env (some env.jurisdictions) = env.jurisdictions := by
  show (if (env.jurisdictions).isEmpty = true then env.jurisdictions
    else env.jurisdictions) = env.jurisdictions
  exact ite_self _

/-- A work whose status map is an aggregation result makes a fresh
aggregation pass read every entry back from the cache. -/
theorem buildStatusMap_from_cache (env : Env) (u : Work) (f1 : Jurisdiction → Status)
    (js : List Jurisdiction)
    (hsbj : u.status_by_jurisdiction = buildStatusMap f1 js) :
    buildStatusMap (fun j => determineStatus env u (some j) none) js =
      buildStatusMap f1 js := by
  apply buildStatusMap_cached
  intro j hj c hcode hc
  have hmem : c ∈ keysOf (buildStatusMap f1 js) := by
    unfold buildStatusMap
    rw [keysOf_foldl_statusMapStep]
    exact mem_foldl_keyStep_of js _ hj hcode hc
  obtain ⟨v, hv⟩ := Option.isSome_iff_exists.mp ((lookupS_isSome_iff _ c).mpr hmem)
  have hnonempty : (buildStatusMap f1 js).isEmpty = false := keysOf_mem_ne_nil hmem
  have hcached : cachedStatus u (some j) = some v := by
    show (if u.status_by_jurisdiction.isEmpty = true then none
      else
        match j.code with
        | some e => lookupS u.status_by_jurisdiction e
        | none => none) = some v
    rw [hsbj, if_neg (by simp [hnonempty]), hcode]
    exact hv
  have hdet : determineStatus env u (some j) none = v := by
    unfold determineStatus
    rw [hcached]
  rw [hdet]
  exact hv

/-- Step 3 of a second update pass reproduces the stored status map. -/
theorem multi_update_stable (env : Env) (w : Work) :
    calculateMultiJurisdictionStatus env (updateWorkStatus env w)
      (some env.jurisdictions) = (updateWorkStatus env w).status_by_jurisdiction := by
  have hrhs : (updateWorkStatus env w).status_by_jurisdiction =
      buildStatusMap (fun j => determineStatus env
        { w with
            copyright_expiry_date := globalExpiry env w,
            status := determineStatus env w none none }
        (some j) none) env.jurisdictions := by
    rw [updateWorkStatus_sbj]
    unfold calculateMultiJurisdictionStatus
    rw [resolveJurisdictions_self]
  show buildStatusMap (fun j => determineStatus env (updateWorkStatus env w) (some j) none)
      (resolveJurisdictions env (some env.jurisdictions)) =
    (updateWorkStatus env w).status_by_jurisdiction
  rw [resolveJurisdictions_self, hrhs]
  exact buildStatusMap_from_cache env (updateWorkStatus env w) _ env.jurisdictions hrhs

/-! Claim C7: idempotence of update_work_status. -/

/-- C7: a second update_work_status pass with the same catalog and
current date leaves status, status_by_jurisdiction, and the stored
expiry date unchanged; an expiry set by the first pass is kept as-is by
the unset-only guard of step 1. -/
theorem C7_updateWorkStatus_idempotent (env : Env) (w : Work) :
    (updateWorkStatus env (updateWorkStatus env w)).status =
      (updateWorkStatus env w).status ∧
    (updateWorkStatus env (updateWorkStatus env w)).status_by_jurisdiction =
      (updateWorkStatus env w).status_by_jurisdiction ∧
    (updateWorkStatus env (updateWorkStatus env w)).copyright_expiry_date =
      (updateWorkStatus env w).copyright_expiry_date := by
  refine ⟨?_, ?_, ?_⟩
  · rw [updateWorkStatus_status env (updateWorkStatus env w)]
    exact status_update_stable env w
  · have he :
        ({ updateWorkStatus env w with
            copyright_expiry_date := globalExpiry env (updateWorkStatus env w),
            status := determineStatus env (updateWorkStatus env w) none none } : Work) =
        updateWorkStatus env w := by
      rw [expiry_update_stable env w, status_update_stable env w]
    rw [updateWorkStatus_sbj env (updateWorkStatus env w), he]
    exact multi_update_stable env w
  · rw [updateWorkStatus_ced env (updateWorkStatus env w)]
    exact expiry_update_stable env w

end Scheduler
